import Mathlib

/-!
Shallow embedding of `scripts/python/fetch_stations.py`: the ODPT
fetch-aggregate-dedup-serialize pipeline.  Fetched JSON records are
modelled as insertion-ordered association lists (Python dicts), remote
responses as oracle functions in an environment, and exceptions as an
`Except` error type.  All definitions follow the Python source; the few
modelling conventions (opaque containers, the decimal-literal fragment of
`float`) are noted at the definition they concern.
-/

/-- JSON-like values held in fetched records.  Containers (arrays and
objects) are modelled as opaque atoms: the script never inspects their
contents, and they are treated as non-empty for Python truthiness. -/
inductive JVal where
  | jnull
  | jbool (b : Bool)
  | jnum (q : ℚ)
  | jstr (s : String)
  | jarr
  | jobj
deriving DecidableEq

/-- Python truthiness (`if station_id:` etc.) of a JSON value. -/
def JVal.truthy : JVal → Bool
  | .jnull => false
  | .jbool b => b
  | .jnum q => q != 0
  | .jstr s => s != ""
  | .jarr => true
  | .jobj => true

/-- Lookup in a Python dict modelled as an insertion-ordered association
list with unique keys. -/
def assocGet {κ β : Type} [BEq κ] (m : List (κ × β)) (k : κ) : Option β :=
  (m.find? (fun p => p.1 == k)).map (·.2)

/-- Key-membership test in such a dict. -/
def assocHas {κ β : Type} [BEq κ] (m : List (κ × β)) (k : κ) : Bool :=
  m.any (fun p => p.1 == k)

/-- Python `m[k] = v`: overwrite in place when the key is present (keeping
its insertion position), append otherwise. -/
def assocSet {κ β : Type} [BEq κ] (m : List (κ × β)) (k : κ) (v : β) : List (κ × β) :=
  if assocHas m k then m.map (fun p => if p.1 == k then (k, v) else p)
  else m ++ [(k, v)]

/-- A fetched record: a Python dict as an insertion-ordered association
list with unique keys. -/
abbrev Record := List (String × JVal)

/-- Python `record.get(k)`: the value under `k`, `none` when absent. -/
def Record.get (r : Record) (k : String) : Option JVal :=
  assocGet r k

/-- Python `k in record`. -/
def Record.hasKey (r : Record) (k : String) : Bool :=
  assocHas r k

/-- Python `record[k] = v`. -/
def Record.set (r : Record) (k : String) (v : JVal) : Record :=
  assocSet r k v

/-! ### Model of Python `float()` on the values that can occur in records -/

/-- Whitespace stripped by `float(str)`. -/
def isWs (c : Char) : Bool :=
  c == ' ' || c == '\t' || c == '\n' || c == '\r'

/-- Optional leading sign of a numeric literal. -/
def parseSign : List Char → Bool × List Char
  | '+' :: cs => (false, cs)
  | '-' :: cs => (true, cs)
  | cs => (false, cs)

/-- Value of a list of decimal digit characters. -/
def digitsToNat (ds : List Char) : ℕ :=
  ds.foldl (fun n c => 10 * n + (c.toNat - 48)) 0

/-- Unsigned decimal mantissa `digits[.digits]`, requiring at least one
digit. -/
def parseUnsignedDec (cs : List Char) : Option (ℚ × List Char) :=
  let ip := cs.takeWhile Char.isDigit
  let rest := cs.dropWhile Char.isDigit
  match rest with
  | '.' :: rest2 =>
    let fp := rest2.takeWhile Char.isDigit
    let rest3 := rest2.dropWhile Char.isDigit
    if ip.isEmpty && fp.isEmpty then none
    else some ((digitsToNat ip : ℚ) + (digitsToNat fp : ℚ) / (10 : ℚ) ^ fp.length, rest3)
  | _ =>
    if ip.isEmpty then none else some ((digitsToNat ip : ℚ), rest)

/-- Model of Python `float(str)` on decimal literals: optional surrounding
whitespace and sign, digits with optional fraction and exponent.  (Python's
`float` additionally accepts inf/nan spellings and digit-group
underscores; those never denote coordinates and are not modelled.) -/
def pyFloatOfChars (cs0 : List Char) : Option ℚ :=
  let cs1 := cs0.dropWhile isWs
  let (neg, cs2) := parseSign cs1
  match parseUnsignedDec cs2 with
  | none => none
  | some (m, rest) =>
    let cont : Option (ℚ × List Char) :=
      match rest with
      | 'e' :: r1 | 'E' :: r1 =>
        let (eneg, r2) := parseSign r1
        let ds := r2.takeWhile Char.isDigit
        let r3 := r2.dropWhile Char.isDigit
        if ds.isEmpty then none
        else some ((if eneg then m / (10 : ℚ) ^ digitsToNat ds
                    else m * (10 : ℚ) ^ digitsToNat ds), r3)
      | _ => some (m, rest)
    match cont with
    | none => none
    | some (v, rest2) =>
      if rest2.dropWhile isWs = [] then some (if neg then -v else v) else none

/-- Python `float(x)` on a record value: numbers and bools convert,
numeric strings parse, `None` and containers raise (give `none`). -/
def pyFloat : JVal → Option ℚ
  | .jnum q => some q
  | .jbool b => some (if b then 1 else 0)
  | .jstr s => pyFloatOfChars s.data
  | _ => none

/-! ### GeoJSON projection (lines 311-368) -/

/-- Latitude field aliases, in priority order. -/
def latAliases : List String := ["geo:lat", "lat", "latitude"]

/-- Longitude field aliases, in priority order. -/
def lonAliases : List String := ["geo:long", "long", "lon", "longitude"]

/-- The `for k in (...): if k in station: v = station.get(k); break` loop:
the value stored under the first present alias (possibly JSON null),
`none` when no alias key is present. -/
def firstPresentVal (st : Record) : List String → Option JVal
  | [] => none
  | k :: ks => if st.hasKey k then st.get k else firstPresentVal st ks

/-- The Python `lat` / `lon` variable after the alias loop: `None` both
when no alias is present and when the first present alias holds null. -/
def coordVal (st : Record) (aliases : List String) : Option JVal :=
  match firstPresentVal st aliases with
  | some .jnull => none
  | some v => some v
  | none => none

/-- Geometry construction (the `try` block): Point coordinates
`[lon, lat]`, `none` when a coordinate is missing or `float()` raises. -/
def geometryOf (st : Record) : Option (List ℚ) :=
  match coordVal st latAliases, coordVal st lonAliases with
  | some la, some lo =>
    match pyFloat la, pyFloat lo with
    | some latF, some lonF => some [lonF, latF]
    | _, _ => none
  | _, _ => none

/-- The four whitelisted Feature properties, with `record.get` semantics
(`none` serializes as null). -/
def featureProps (st : Record) : List (String × Option JVal) :=
  [("owl:sameAs", st.get "owl:sameAs"),
   ("odpt:stationTitle", st.get "odpt:stationTitle"),
   ("odpt:operator", st.get "odpt:operator"),
   ("odpt:railway", st.get "odpt:railway")]

/-- A GeoJSON Feature: a Point geometry and the whitelisted properties. -/
structure Feature where
  geometry : List ℚ
  properties : List (String × Option JVal)
deriving DecidableEq

/-- One station's Feature, `none` when the station is skipped. -/
def toFeature (st : Record) : Option Feature :=
  (geometryOf st).map (fun g => { geometry := g, properties := featureProps st })

/-- The GeoJSON loop over `stations_list`: emitted features in order, and
the skipped count. -/
def buildFeatures : List Record → List Feature × ℕ
  | [] => ([], 0)
  | st :: rest =>
    let (fs, sk) := buildFeatures rest
    match toFeature st with
    | some f => (f :: fs, sk)
    | none => (fs, sk + 1)

/-! ### Deduplication and sorting (lines 287-297) -/

/-- Python dict assignment `unique_stations[station_id] = station`. -/
def dictSet (m : List (JVal × Record)) (k : JVal) (v : Record) : List (JVal × Record) :=
  assocSet m k v

/-- Dict lookup on the accumulator. -/
def dictGet (m : List (JVal × Record)) (k : JVal) : Option Record :=
  assocGet m k

/-- One iteration of the dedup loop: `station_id = station.get('owl:sameAs');
if station_id: unique_stations[station_id] = station`. -/
def dedupStep (m : List (JVal × Record)) (st : Record) : List (JVal × Record) :=
  match st.get "owl:sameAs" with
  | some v => if v.truthy then dictSet m v st else m
  | none => m

/-- The `unique_stations` dict after the dedup loop. -/
def uniqueStations (stations : List Record) : List (JVal × Record) :=
  stations.foldl dedupStep []

/-- `stations_list = list(unique_stations.values())`. -/
def stationsList (stations : List Record) : List Record :=
  (uniqueStations stations).map (·.2)

/-- The sort key `s.get('owl:sameAs', '')`. -/
def sortKey (st : Record) : JVal :=
  (st.get "owl:sameAs").getD (.jstr "")

/-- Constructor rank, used to totalise the comparison below. -/
def JVal.rank : JVal → ℕ
  | .jnull => 0
  | .jbool _ => 1
  | .jnum _ => 2
  | .jstr _ => 3
  | .jarr => 4
  | .jobj => 5

/-- Comparison used to model `list.sort`.  Python compares keys with `<`
and raises TypeError on mixed types; on string keys (the only ones that
occur) this is exactly Python string comparison, and it is totalised
across constructors so the model stays executable. -/
def JVal.leB : JVal → JVal → Bool
  | .jstr s, .jstr t => decide (s ≤ t)
  | .jnum p, .jnum q => decide (p ≤ q)
  | .jbool a, .jbool b => !a || b
  | a, b => decide (a.rank ≤ b.rank)

/-- `stations_list.sort(key=lambda s: s.get('owl:sameAs', ''))`: a stable
sort by the key. -/
def sortedStations (stations : List Record) : List Record :=
  (stationsList stations).mergeSort (fun a b => JVal.leB (sortKey a) (sortKey b))

/-! ### Aggregation (lines 253-285) and main control flow -/

/-- Exception outcomes of an API call, as distinguished by the handlers
in `main`. -/
inductive FetchErr where
  | httpError
  | urlError
  | interrupt
  | otherError
deriving DecidableEq

/-- One run's environment: key sources, the `operators.txt` content
(`none` when the file is absent), remote responses as oracle functions,
and the output options. -/
structure Env where
  cliKey : Option String
  configKey : Option String
  operatorsFile : Option (List String)
  railwaysOf : String → Except FetchErr (List Record)
  stationsOf : JVal → Except FetchErr (List Record)
  geojsonFlag : Bool
  outputPath : Option String

/-- Lines 283-285: backfill `odpt:railway` when the field is absent. -/
def tagRailway (railwayId : JVal) (st : Record) : Record :=
  if st.hasKey "odpt:railway" then st else st.set "odpt:railway" railwayId

/-- The inner `for railway in railways` loop: stations fetched and
tagged, in order; railways without a truthy `owl:sameAs` are skipped
(but still counted by the caller). -/
def railwaysStations (env : Env) : List Record → Except FetchErr (List Record)
  | [] => .ok []
  | rw :: rws =>
    let rid := (rw.get "owl:sameAs").getD .jnull
    if rid.truthy then
      match env.stationsOf rid with
      | .error e => .error e
      | .ok sts =>
        match railwaysStations env rws with
        | .error e => .error e
        | .ok rest => .ok (sts.map (tagRailway rid) ++ rest)
    else railwaysStations env rws

/-- The outer `for operator_id in operators` loop: accumulated stations
(`all_stations`) and the running railway count. -/
def aggStations (env : Env) : List String → Except FetchErr (List Record × ℕ)
  | [] => .ok ([], 0)
  | op :: ops =>
    if op = "" then aggStations env ops
    else
      match env.railwaysOf op with
      | .error e => .error e
      | .ok rws =>
        match railwaysStations env rws with
        | .error e => .error e
        | .ok sts =>
          match aggStations env ops with
          | .error e => .error e
          | .ok (rest, rc) => .ok (sts ++ rest, rws.length + rc)

/-- Python `str.strip()`: drop whitespace from both ends. -/
def pyStrip (s : String) : String :=
  ⟨((s.data.dropWhile isWs).reverse.dropWhile isWs).reverse⟩

/-- Python `line.startswith('#')`. -/
def startsWithHash (s : String) : Bool :=
  match s.data with
  | '#' :: _ => true
  | _ => false

/-- `read_operators_file`: strip each line, skip blank lines and
`#`-comment lines; an absent file yields the empty list. -/
def readOperators (file : Option (List String)) : List String :=
  match file with
  | none => []
  | some lines =>
    (lines.map pyStrip).filter (fun l => (l != "") && !(startsWithHash l))

/-- Python truthiness of an optional string (`if not api_key:`). -/
def strTruthy : Option String → Bool
  | none => false
  | some s => s != ""

/-- Key resolution: the CLI argument when truthy, else the configuration
file's key. -/
def resolveKey (env : Env) : Option String :=
  if strTruthy env.cliKey then env.cliKey else env.configKey

/-- GeoJSON mode: the `--geojson` flag, or an output path ending in
`.geojson` (case-insensitive). -/
def geojsonMode (env : Env) : Bool :=
  env.geojsonFlag ||
    (match env.outputPath with
     | some p => p.toLower.endsWith ".geojson"
     | none => false)

/-- Exit code and the output path written, `none` when the run aborts
before writing (or writes to stdout). -/
structure RunResult where
  exitCode : ℕ
  fileWritten : Option String
deriving DecidableEq

/-- Control skeleton of `main()`: key resolution, the operator-list
check, the fetch loop inside try/except, and the exit codes.  A plain
`URLError` and any unexpected exception both fall to the generic
`except Exception` handler (exit 1); `KeyboardInterrupt` exits 130. -/
def mainRun (env : Env) : RunResult :=
  if !strTruthy (resolveKey env) then { exitCode := 1, fileWritten := none }
  else
    let ops := readOperators env.operatorsFile
    if ops.isEmpty then { exitCode := 1, fileWritten := none }
    else
      match aggStations env ops with
      | .ok _ => { exitCode := 0, fileWritten := env.outputPath }
      | .error .interrupt => { exitCode := 130, fileWritten := none }
      | .error _ => { exitCode := 1, fileWritten := none }

/-! ### Plain-JSON serialization (lines 372-389) -/

/-- The `output_data` document of lines 372-380: summary counts and the
full deduplicated station list, unchanged. -/
structure PlainDoc where
  opCount : ℕ
  railwayTotal : ℕ
  stationCount : ℕ
  stations : List Record
deriving DecidableEq

/-- Build `output_data` from the aggregation results. -/
def outputDoc (operators : List String) (railwayTotal : ℕ) (sl : List Record) : PlainDoc :=
  { opCount := operators.length
    railwayTotal := railwayTotal
    stationCount := sl.length
    stations := sl }

/-- Decimal digit characters of `n`, most significant first
(fuel-driven so that it computes by structural recursion). -/
def natDecAux : ℕ → ℕ → List Char
  | 0, _ => []
  | _ + 1, 0 => []
  | fuel + 1, n + 1 =>
    natDecAux fuel ((n + 1) / 10) ++ [Char.ofNat (48 + (n + 1) % 10)]

/-- Decimal digit characters of `n`, as Python's `str` of an int. -/
def natDec (n : ℕ) : List Char :=
  if n = 0 then ['0'] else natDecAux (n + 1) n

/-- String form of `natDec`. -/
def natDecS (n : ℕ) : String := ⟨natDec n⟩

/-- JSON string escaping (quote and backslash; other characters pass
through under `ensure_ascii=False`). -/
def escChar (c : Char) : List Char :=
  if c = '"' then ['\\', '"'] else if c = '\\' then ['\\', '\\'] else [c]

/-- A JSON string literal. -/
def dumpStr (s : String) : String :=
  "\"" ++ ⟨s.data.foldr (fun c acc => escChar c ++ acc) []⟩ ++ "\""

/-- Zero-pad a digit list on the left to width `w`. -/
def padZeros (w : ℕ) (ds : List Char) : List Char :=
  List.replicate (w - ds.length) '0' ++ ds

/-- JSON number output.  Numbers arriving from JSON are finite decimals
`m / 10 ^ k` and print as such; other rationals (which cannot arise from
parsed JSON) print in a fallback fraction form. -/
def dumpRat (q : ℚ) : String :=
  let sign : String := if q.num < 0 then "-" else ""
  match (List.range 40).find? (fun k => 10 ^ k % q.den == 0) with
  | some 0 => sign ++ natDecS q.num.natAbs
  | some k =>
    let m := q.num.natAbs * (10 ^ k / q.den)
    sign ++ natDecS (m / 10 ^ k) ++ "." ++ ⟨padZeros k (natDec (m % 10 ^ k))⟩
  | none => sign ++ natDecS q.num.natAbs ++ "/" ++ natDecS q.den

/-- One record value in JSON form.  The opaque containers print as empty
container literals. -/
def dumpJVal : JVal → String
  | .jnull => "null"
  | .jbool true => "true"
  | .jbool false => "false"
  | .jnum q => dumpRat q
  | .jstr s => dumpStr s
  | .jarr => "[]"
  | .jobj => "\x7b\x7d"

/-- Comma-space separator of `json.dumps` with `indent=None`. -/
def joinComma (xs : List String) : String := String.intercalate ", " xs

/-- One station record in JSON form. -/
def dumpRecord (r : Record) : String :=
  "\x7b" ++ joinComma (r.map (fun p => dumpStr p.1 ++ ": " ++ dumpJVal p.2)) ++ "\x7d"

/-- The station list in JSON form. -/
def dumpStations (sl : List Record) : String :=
  "[" ++ joinComma (sl.map dumpRecord) ++ "]"

/-- `json.dumps(output_data)` with default separators (`indent=None`):
keys in insertion order, `', '` and `': '` separators. -/
def dumpsOutput (doc : PlainDoc) : String :=
  "\x7b\"summary\": \x7b\"operators\": " ++ natDecS doc.opCount ++
  ", \"railways\": " ++ natDecS doc.railwayTotal ++
  ", \"stations\": " ++ natDecS doc.stationCount ++
  "\x7d, \"stations\": " ++ dumpStations doc.stations ++ "\x7d"

/-- Consume an expected literal from the front of the input. -/
def expectLit (lit cs : List Char) : Option (List Char) :=
  if lit.isPrefixOf cs then some (cs.drop lit.length) else none

/-- Consume a decimal integer token (at least one digit). -/
def parseNatTok (cs : List Char) : Option (ℕ × List Char) :=
  let ds := cs.takeWhile Char.isDigit
  if ds.isEmpty then none
  else some (digitsToNat ds, cs.dropWhile Char.isDigit)

/-- Reading the parsed document's summary counts back (`json.loads`
followed by indexing `summary`), specialised to the layout emitted by
`dumpsOutput`. -/
def parseSummaryCounts (out : String) : Option (ℕ × ℕ × ℕ) := do
  let cs1 ← expectLit "\x7b\"summary\": \x7b\"operators\": ".data out.data
  let (nOps, cs2) ← parseNatTok cs1
  let cs3 ← expectLit ", \"railways\": ".data cs2
  let (nRw, cs4) ← parseNatTok cs3
  let cs5 ← expectLit ", \"stations\": ".data cs4
  let (nSt, cs6) ← parseNatTok cs5
  let _ ← expectLit "\x7d".data cs6
  some (nOps, nRw, nSt)

/-! ### URL building and key redaction (`OdptClient._make_request`) -/

/-- Characters `urllib.parse.quote_plus` leaves unencoded (ASCII
alphanumerics and `_.-~`). -/
def quoteSafe (c : Char) : Bool :=
  c.isAlphanum || c = '_' || c = '.' || c = '-' || c = '~'

/-- Upper-case hex digit. -/
def hexDigit (n : ℕ) : Char :=
  if n < 10 then Char.ofNat (48 + n) else Char.ofNat (55 + n)

/-- `%XX` percent-encoding of one byte. -/
def pctEncode (n : ℕ) : List Char :=
  ['%', hexDigit (n / 16 % 16), hexDigit (n % 16)]

/-- UTF-8 bytes of one character. -/
def utf8Bytes (c : Char) : List ℕ :=
  let n := c.toNat
  if n < 128 then [n]
  else if n < 2048 then [192 + n / 64, 128 + n % 64]
  else if n < 65536 then [224 + n / 4096, 128 + n / 64 % 64, 128 + n % 64]
  else [240 + n / 262144, 128 + n / 4096 % 64, 128 + n / 64 % 64, 128 + n % 64]

/-- `urllib.parse.quote_plus` on one character. -/
def quotePlusChar (c : Char) : List Char :=
  if quoteSafe c then [c]
  else if c = ' ' then ['+']
  else (utf8Bytes c).foldr (fun b acc => pctEncode b ++ acc) []

/-- `urllib.parse.quote_plus` on a string. -/
def quotePlus (s : String) : String :=
  ⟨s.data.foldr (fun c acc => quotePlusChar c ++ acc) []⟩

/-- `urlencode` over the query parameters, in order. -/
def urlencodeParams (ps : List (String × String)) : String :=
  String.intercalate "&" (ps.map (fun p => quotePlus p.1 ++ "=" ++ quotePlus p.2))

/-- `base_url.rstrip('/') + '/'` from `OdptClient.__init__`. -/
def normalizeBase (b : String) : String :=
  ⟨(b.data.reverse.dropWhile (· == '/')).reverse⟩ ++ "/"

/-- The request URL built by `_make_request`: the consumer key is the
first query parameter. -/
def buildUrl (baseUrl apiKey endpoint : String) (params : List (String × String)) : String :=
  normalizeBase baseUrl ++ endpoint ++ "?" ++
    urlencodeParams (("acl:consumerKey", apiKey) :: params)

/-- Replacement worker, fuel-driven so it computes by structural
recursion; the fuel is an upper bound on the input length, so the
`fuel = 0` branch is only reached on the empty input. -/
def pyReplaceAux (pat rep : List Char) : ℕ → List Char → List Char
  | 0, s => s
  | _ + 1, [] => []
  | fuel + 1, c :: rest =>
    if pat ≠ [] ∧ pat.isPrefixOf (c :: rest) then
      rep ++ pyReplaceAux pat rep fuel ((c :: rest).drop pat.length)
    else
      c :: pyReplaceAux pat rep fuel rest

/-- Python `str.replace`: replace every occurrence of `pat`, scanning
left to right, non-overlapping.  (For the empty pattern Python would
interleave the replacement everywhere; the script's key is checked
non-empty before any request, and the model leaves `s` unchanged.) -/
def pyReplace (s pat rep : List Char) : List Char :=
  pyReplaceAux pat rep s.length s

/-- The redaction marker of `_make_request`. -/
def redactMarker : String := "<API_KEY_REDACTED>"

/-- `safe_url = url.replace(self.api_key, '<API_KEY_REDACTED>')`. -/
def safeUrl (apiKey url : String) : String :=
  ⟨pyReplace url.data apiKey.data redactMarker.data⟩

/-- The `URL: ...` line printed by the `HTTPError` handler. -/
def httpErrorUrlLine (apiKey url : String) : String :=
  "URL: " ++ safeUrl apiKey url

/-- Substring test (Python `pat in s`). -/
def hasSub (s pat : List Char) : Bool :=
  match s with
  | [] => pat.isEmpty
  | _ :: rest => pat.isPrefixOf s || hasSub rest pat

/-! ### Specification-side characterizations and concrete witness data -/

/-- The last station of the accumulated sequence whose (truthy)
identifier is `v` — the record last-write-wins deduplication must keep. -/
def lastIdMatch (sts : List Record) (v : JVal) : Option Record :=
  (sts.filter (fun st => v.truthy && (st.get "owl:sameAs" == some v))).getLast?

/-- The station-identifier sort key as a string: records missing an
identifier contribute the empty string. -/
def strKey (st : Record) : String :=
  match st.get "owl:sameAs" with
  | some (.jstr s) => s
  | _ => ""

/-- A station with duplicate-identifier competitors, used as witness data. -/
def stB1 : Record := [("owl:sameAs", .jstr "B"), ("dc:title", .jstr "one")]

/-- Witness data: a station with identifier A. -/
def stA : Record := [("owl:sameAs", .jstr "A")]

/-- Witness data: the later (winning) record with identifier B. -/
def stB2 : Record := [("owl:sameAs", .jstr "B"), ("dc:title", .jstr "two")]

/-- Witness data: a station lacking an identifier. -/
def stNoId : Record := [("dc:title", .jstr "noid")]

/-- Witness data: a station with numeric coordinates. -/
def stGeo : Record :=
  [("owl:sameAs", .jstr "S1"), ("geo:lat", .jnum 35), ("geo:long", .jnum 139)]

/-- Witness data: a railway record with an identifier. -/
def rwR1 : Record := [("owl:sameAs", .jstr "R1")]

/-- Witness data: a railway record lacking an identifier. -/
def rwNoId : Record := [("dc:title", .jstr "Nameless Line")]

/-- Witness environment: a successful one-operator run. -/
def envOk : Env :=
  { cliKey := some "k"
    configKey := none
    operatorsFile := some ["OP-A"]
    railwaysOf := fun _ => .ok [rwR1]
    stationsOf := fun _ => .ok [stGeo]
    geojsonFlag := false
    outputPath := none }

/-- Witness environment: no key anywhere and an empty operator list. -/
def envNoKey : Env :=
  { cliKey := none
    configKey := none
    operatorsFile := some []
    railwaysOf := fun _ => .ok []
    stationsOf := fun _ => .ok []
    geojsonFlag := false
    outputPath := some "out.json" }

/-- Witness environment: the railway fetch is interrupted by the user. -/
def envInterrupted : Env :=
  { cliKey := some "k"
    configKey := none
    operatorsFile := some ["OP-A"]
    railwaysOf := fun _ => .error .interrupt
    stationsOf := fun _ => .ok []
    geojsonFlag := false
    outputPath := some "out.json" }

/-- Witness environment: one operator whose single railway has no
identifier field. -/
def envNoIdRailway : Env :=
  { cliKey := some "k"
    configKey := none
    operatorsFile := some ["OP-A"]
    railwaysOf := fun _ => .ok [rwNoId]
    stationsOf := fun _ => .ok [stGeo]
    geojsonFlag := false
    outputPath := none }

/-! ## Association-dict lemmas -/

/-- A dict lookup misses exactly when the key is absent. -/
theorem assocGet_eq_none {κ β : Type} [BEq κ] {m : List (κ × β)} {k : κ} :
    assocGet m k = none ↔ assocHas m k = false := by
  simp [assocGet, assocHas, List.find?_eq_none, List.any_eq_true]


/-- In-place overwrite: `find?` for the overwritten key on the rewritten
list. -/
theorem find?_map_replace {κ β : Type} [BEq κ] [LawfulBEq κ]
    (m : List (κ × β)) (k : κ) (v : β) :
    (m.map (fun p => if p.1 == k then (k, v) else p)).find? (fun p => p.1 == k) =
      if assocHas m k then some (k, v) else none := by
  induction m with
  | nil => simp [assocHas]
  | cons p m ih =>
    by_cases hp : p.1 == k
    · simp [List.find?_cons, hp, assocHas]
    · simp only [List.map_cons, if_neg hp]
      rw [List.find?_cons_of_neg _ (by simpa using hp), ih]
      have : assocHas (p :: m) k = assocHas m k := by
        simp [assocHas, List.any_cons, hp]
      rw [this]

/-- In-place overwrite: `find?` for any other key is unchanged. -/
theorem find?_map_replace_ne {κ β : Type} [BEq κ] [LawfulBEq κ]
    (m : List (κ × β)) (k : κ) (v : β) (k' : κ) (hkk : (k == k') = false) :
    (m.map (fun p => if p.1 == k then (k, v) else p)).find? (fun p => p.1 == k') =
      m.find? (fun p => p.1 == k') := by
  induction m with
  | nil => simp
  | cons p m ih =>
    by_cases hp : p.1 == k
    · have hp1 : p.1 = k := by simpa using hp
      have hph : ((p.1 == k') = false) := by rw [hp1]; exact hkk
      simp only [List.map_cons, if_pos hp]
      rw [List.find?_cons_of_neg _ (by simpa using hkk),
        List.find?_cons_of_neg _ (by simpa using hph)]
      exact ih
    · simp only [List.map_cons, if_neg hp]
      by_cases hq : p.1 == k'
      · simp only [List.find?_cons, hq]
      · rw [List.find?_cons_of_neg _ (by simpa using hq),
          List.find?_cons_of_neg _ (by simpa using hq)]
        exact ih

/-- With the key absent, `find?` for it yields nothing. -/
theorem find?_eq_none_of_not_has {κ β : Type} [BEq κ]
    {m : List (κ × β)} {k : κ} (h : ¬ assocHas m k = true) :
    m.find? (fun p => p.1 == k) = none := by
  rw [List.find?_eq_none]
  intro p hp hc
  exact h (by simp only [assocHas, List.any_eq_true]; exact ⟨p, hp, hc⟩)

/-- Setting a key then reading it back yields the new value. -/
theorem assocGet_set_self {κ β : Type} [BEq κ] [LawfulBEq κ]
    (m : List (κ × β)) (k : κ) (v : β) :
    assocGet (assocSet m k v) k = some v := by
  unfold assocSet
  by_cases h : assocHas m k
  · rw [if_pos h]
    unfold assocGet
    rw [find?_map_replace, if_pos h]
    rfl
  · rw [if_neg h]
    unfold assocGet
    rw [List.find?_append, find?_eq_none_of_not_has h]
    simp [List.find?_cons]

/-- Setting a key leaves every other key's value unchanged. -/
theorem assocGet_set_ne {κ β : Type} [BEq κ] [LawfulBEq κ]
    (m : List (κ × β)) (k : κ) (v : β) (k' : κ) (hne : k' ≠ k) :
    assocGet (assocSet m k v) k' = assocGet m k' := by
  have hkk : (k == k') = false := by
    simp only [beq_eq_false_iff_ne, ne_eq]
    exact fun h => hne h.symm
  unfold assocSet
  by_cases h : assocHas m k
  · rw [if_pos h]
    unfold assocGet
    rw [find?_map_replace_ne _ _ _ _ hkk]
  · rw [if_neg h]
    unfold assocGet
    rw [List.find?_append]
    have : List.find? (fun p => p.1 == k') [(k, v)] = none := by
      simp [List.find?_cons, hkk]
    rw [this]
    simp

/-- Every entry of the updated dict is an old entry or the new pair. -/
theorem mem_assocSet {κ β : Type} [BEq κ] [LawfulBEq κ]
    {m : List (κ × β)} {k : κ} {v : β} {p : κ × β} (h : p ∈ assocSet m k v) :
    p ∈ m ∨ p = (k, v) := by
  unfold assocSet at h
  split at h
  · rcases List.mem_map.mp h with ⟨q, hq, rfl⟩
    by_cases hqk : q.1 == k
    · simp [if_pos hqk]
    · rw [if_neg hqk]
      exact Or.inl hq
  · rcases List.mem_append.mp h with h | h
    · exact Or.inl h
    · simp only [List.mem_singleton] at h
      exact Or.inr h

/-- Updating a dict keeps its keys duplicate-free. -/
theorem keys_assocSet_nodup {κ β : Type} [BEq κ] [LawfulBEq κ]
    {m : List (κ × β)} (k : κ) (v : β)
    (h : (m.map (·.1)).Nodup) : ((assocSet m k v).map (·.1)).Nodup := by
  unfold assocSet
  by_cases hh : assocHas m k
  · rw [if_pos hh, List.map_map]
    have heq : m.map ((·.1) ∘ fun p => if p.1 == k then (k, v) else p) = m.map (·.1) := by
      apply List.map_congr_left
      intro p _
      by_cases hp : p.1 == k
      · have : p.1 = k := by simpa using hp
        simp [if_pos hp, this]
      · simp [if_neg hp]
    rw [heq]
    exact h
  · rw [if_neg hh, List.map_append]
    rw [List.nodup_append]
    refine ⟨h, by simp, ?_⟩
    intro a ha hb
    simp only [List.map_cons, List.map_nil, List.mem_singleton] at hb
    subst hb
    rcases List.mem_map.mp ha with ⟨q, hq, hq1⟩
    exact hh (by simp only [assocHas, List.any_eq_true]; exact ⟨q, hq, by simp [hq1]⟩)

/-! ## Record-level corollaries -/

/-- Reading back the key just set. -/
theorem Record.get_set_self (r : Record) (k : String) (v : JVal) :
    (r.set k v).get k = some v :=
  assocGet_set_self r k v

/-- Other keys are untouched by `set`. -/
theorem Record.get_set_ne (r : Record) (k : String) (v : JVal) (k' : String)
    (h : k' ≠ k) : (r.set k v).get k' = r.get k' :=
  assocGet_set_ne r k v k' h

/-- `get` misses exactly when the key is absent. -/
theorem Record.get_eq_none (r : Record) (k : String) :
    r.get k = none ↔ r.hasKey k = false :=
  assocGet_eq_none

/-! ## Aggregation lemmas -/

/-- Provenance of aggregated stations: every station produced by the
railway loop was fetched for some railway of the list that has a truthy
identifier, and went through the tagging step for that identifier. -/
theorem railwaysStations_ok_mem (env : Env) :
    ∀ (rws sts : List Record), railwaysStations env rws = .ok sts →
      ∀ st' ∈ sts, ∃ rw rid st2, rw ∈ rws ∧ rw.get "owl:sameAs" = some rid ∧
        rid.truthy = true ∧ st' = tagRailway rid st2 := by
  intro rws
  induction rws with
  | nil =>
    intro sts h st' hst'
    simp only [railwaysStations] at h
    injection h with h
    subst h
    simp at hst'
  | cons rw rws ih =>
    intro sts h st' hst'
    simp only [railwaysStations] at h
    by_cases htr : ((rw.get "owl:sameAs").getD .jnull).truthy = true
    · rw [if_pos htr] at h
      cases hso : env.stationsOf ((rw.get "owl:sameAs").getD .jnull) with
      | error e => rw [hso] at h; cases h
      | ok fetched =>
        rw [hso] at h
        cases hrr : railwaysStations env rws with
        | error e => rw [hrr] at h; cases h
        | ok rest =>
          rw [hrr] at h
          injection h with h
          subst h
          rcases List.mem_append.mp hst' with hmem | hmem
          · rcases List.mem_map.mp hmem with ⟨st2, _, rfl⟩
            have hget : rw.get "owl:sameAs" = some ((rw.get "owl:sameAs").getD .jnull) := by
              cases hg : rw.get "owl:sameAs" with
              | none => rw [hg] at htr; simp [JVal.truthy] at htr
              | some w => simp [hg]
            exact ⟨rw, _, st2, List.mem_cons_self _ _, hget, htr, rfl⟩
          · rcases ih rest hrr st' hmem with ⟨rw2, rid2, st2, hmem2, h1, h2, h3⟩
            exact ⟨rw2, rid2, st2, List.mem_cons_of_mem _ hmem2, h1, h2, h3⟩
    · rw [if_neg htr] at h
      rcases ih sts h st' hst' with ⟨rw2, rid2, st2, hmem2, h1, h2, h3⟩
      exact ⟨rw2, rid2, st2, List.mem_cons_of_mem _ hmem2, h1, h2, h3⟩

/-- C7: during aggregation, a fetched station lacking the
`odpt:railway` field gets it set to the identifier of the railway it was
fetched under (all other fields unchanged), a station already carrying
the field is returned entirely unchanged, and every aggregated station
went through exactly this tagging step for its originating railway. -/
theorem c7_railway_backfill (rid : JVal) (st : Record) :
    (st.hasKey "odpt:railway" = false →
      (tagRailway rid st).get "odpt:railway" = some rid ∧
      ∀ k, k ≠ "odpt:railway" → (tagRailway rid st).get k = st.get k) ∧
    (st.hasKey "odpt:railway" = true → tagRailway rid st = st) ∧
    (∀ (env : Env) (rws sts : List Record), railwaysStations env rws = .ok sts →
      ∀ st' ∈ sts, ∃ rw rid2 st2, rw ∈ rws ∧ rw.get "owl:sameAs" = some rid2 ∧
        rid2.truthy = true ∧ st' = tagRailway rid2 st2) := by
  refine ⟨?_, ?_, ?_⟩
  · intro hk
    unfold tagRailway
    rw [if_neg (by simp [hk])]
    exact ⟨Record.get_set_self st _ rid, fun k hkne => Record.get_set_ne st _ rid k hkne⟩
  · intro hk
    unfold tagRailway
    rw [if_pos hk]
  · intro env rws sts h st' hst'
    exact railwaysStations_ok_mem env rws sts h st' hst'

/-- Witness for C7 at concrete inputs: a station without the railway
field gets it backfilled, a station with it is unchanged, and the
aggregated station of a one-railway run has the tagged shape. -/
theorem c7_witness :
    (tagRailway (.jstr "R1") stGeo).get "odpt:railway" = some (.jstr "R1") ∧
    tagRailway (.jstr "R1") [("odpt:railway", JVal.jstr "keep")] =
      [("odpt:railway", JVal.jstr "keep")] ∧
    (∃ rw rid2 st2, rw ∈ [rwR1] ∧ rw.get "owl:sameAs" = some rid2 ∧
      rid2.truthy = true ∧ tagRailway (JVal.jstr "R1") stGeo = tagRailway rid2 st2) :=
  ⟨((c7_railway_backfill (.jstr "R1") stGeo).1 (by rfl)).1,
   (c7_railway_backfill (.jstr "R1") [("odpt:railway", JVal.jstr "keep")]).2.1 (by rfl),
   (c7_railway_backfill (.jstr "R1") stGeo).2.2 envOk [rwR1]
     [tagRailway (JVal.jstr "R1") stGeo] (by rfl)
     (tagRailway (JVal.jstr "R1") stGeo) (List.mem_singleton.mpr rfl)⟩

/-! ## Deduplication lemmas -/

/-- Effect of the dedup fold on a fixed key: the last matching station
wins, else the accumulator's binding survives. -/
theorem foldl_dedup_get (v : JVal) :
    ∀ (sts : List Record) (m : List (JVal × Record)),
      dictGet (sts.foldl dedupStep m) v = (lastIdMatch sts v).or (dictGet m v) := by
  intro sts
  induction sts with
  | nil => intro m; simp [lastIdMatch]
  | cons st sts ih =>
    intro m
    rw [List.foldl_cons, ih]
    unfold lastIdMatch
    by_cases hpred : (JVal.truthy v && (st.get "owl:sameAs" == some v)) = true
    · obtain ⟨hv, hid'⟩ : v.truthy = true ∧ (st.get "owl:sameAs" == some v) = true := by
        simpa using hpred
      have hid : st.get "owl:sameAs" = some v := by simpa using hid'
      have hfc : (st :: sts).filter (fun st => JVal.truthy v && (st.get "owl:sameAs" == some v)) =
          st :: sts.filter (fun st => JVal.truthy v && (st.get "owl:sameAs" == some v)) := by
        simp [List.filter_cons, hpred]
      rw [hfc]
      have hstep : dedupStep m st = dictSet m v st := by
        simp [dedupStep, hid, hv]
      rw [hstep]
      have hgot : dictGet (dictSet m v st) v = some st := assocGet_set_self m v st
      rw [hgot, List.getLast?_cons]
      cases hcase : (sts.filter (fun st => JVal.truthy v && (st.get "owl:sameAs" == some v))).getLast? with
      | none => simp [lastIdMatch, hcase]
      | some r => simp [lastIdMatch, hcase]
    · have hb : (JVal.truthy v && (st.get "owl:sameAs" == some v)) = false := by
        simpa using hpred
      have hfc : (st :: sts).filter (fun st => JVal.truthy v && (st.get "owl:sameAs" == some v)) =
          sts.filter (fun st => JVal.truthy v && (st.get "owl:sameAs" == some v)) := by
        simp [List.filter_cons, hb]
      rw [hfc]
      have hstep : dictGet (dedupStep m st) v = dictGet m v := by
        cases hg : st.get "owl:sameAs" with
        | none => simp [dedupStep, hg]
        | some w =>
          by_cases hw : w.truthy = true
          · have : dedupStep m st = dictSet m w st := by simp [dedupStep, hg, hw]
            rw [this]
            apply assocGet_set_ne
            intro hvw
            subst hvw
            rw [hg] at hb
            simp [hw] at hb
          · simp [dedupStep, hg, hw]
      rw [hstep]

/-- Every entry of the dedup dict either was already in the accumulator
or binds a truthy identifier to one of the processed stations. -/
theorem foldl_dedup_mem :
    ∀ (sts : List Record) (m : List (JVal × Record)) (p : JVal × Record),
      p ∈ sts.foldl dedupStep m →
      p ∈ m ∨ (p.2.get "owl:sameAs" = some p.1 ∧ p.1.truthy = true ∧ p.2 ∈ sts) := by
  intro sts
  induction sts with
  | nil => intro m p h; exact Or.inl h
  | cons st sts ih =>
    intro m p h
    rw [List.foldl_cons] at h
    rcases ih _ p h with hm | ⟨h1, h2, h3⟩
    · cases hg : st.get "owl:sameAs" with
      | none =>
        have : dedupStep m st = m := by simp [dedupStep, hg]
        rw [this] at hm
        exact Or.inl hm
      | some w =>
        by_cases hw : w.truthy = true
        · have : dedupStep m st = dictSet m w st := by simp [dedupStep, hg, hw]
          rw [this] at hm
          rcases mem_assocSet hm with hm2 | rfl
          · exact Or.inl hm2
          · exact Or.inr ⟨hg, hw, List.mem_cons_self _ _⟩
        · have : dedupStep m st = m := by simp [dedupStep, hg, hw]
          rw [this] at hm
          exact Or.inl hm
    · exact Or.inr ⟨h1, h2, List.mem_cons_of_mem _ h3⟩

/-- The dedup dict's keys stay duplicate-free. -/
theorem foldl_dedup_keys_nodup :
    ∀ (sts : List Record) (m : List (JVal × Record)),
      (m.map (·.1)).Nodup → ((sts.foldl dedupStep m).map (·.1)).Nodup := by
  intro sts
  induction sts with
  | nil => intro m h; exact h
  | cons st sts ih =>
    intro m h
    rw [List.foldl_cons]
    apply ih
    cases hg : st.get "owl:sameAs" with
    | none =>
      have : dedupStep m st = m := by simp [dedupStep, hg]
      rw [this]
      exact h
    | some w =>
      by_cases hw : w.truthy = true
      · have : dedupStep m st = dictSet m w st := by simp [dedupStep, hg, hw]
        rw [this]
        exact keys_assocSet_nodup w st h
      · have : dedupStep m st = m := by simp [dedupStep, hg, hw]
        rw [this]
        exact h

/-- Filtering the dict's values by an identifier recovers exactly the
dict's binding for it. -/
theorem values_filter_eq (v : JVal) :
    ∀ (m : List (JVal × Record)),
      (∀ p ∈ m, p.2.get "owl:sameAs" = some p.1) →
      (m.map (·.1)).Nodup →
      (m.map (·.2)).filter (fun st => st.get "owl:sameAs" == some v) = (dictGet m v).toList := by
  intro m
  induction m with
  | nil => intro _ _; simp [dictGet, assocGet]
  | cons p m ih =>
    intro hinv hnd
    have hpid : p.2.get "owl:sameAs" = some p.1 := hinv p (List.mem_cons_self _ _)
    rw [List.map_cons, List.nodup_cons] at hnd
    by_cases hkv : p.1 = v
    · subst hkv
      have hfc : (p.2 :: m.map (·.2)).filter (fun st => st.get "owl:sameAs" == some p.1) =
          p.2 :: (m.map (·.2)).filter (fun st => st.get "owl:sameAs" == some p.1) := by
        simp [List.filter_cons, hpid]
      rw [List.map_cons, hfc]
      have hnone : (m.map (·.2)).filter (fun st => st.get "owl:sameAs" == some p.1) = [] := by
        rw [List.filter_eq_nil_iff]
        intro st hst
        rcases List.mem_map.mp hst with ⟨q, hq, rfl⟩
        have hqid := hinv q (List.mem_cons_of_mem _ hq)
        have hqne : q.1 ≠ p.1 := by
          intro he
          exact hnd.1 (List.mem_map.mpr ⟨q, hq, he⟩)
        simp [hqid, hqne]
      rw [hnone]
      have hgot : dictGet (p :: m) p.1 = some p.2 := by
        simp [dictGet, assocGet, List.find?_cons]
      rw [hgot]
      rfl
    · have hfc : (p.2 :: m.map (·.2)).filter (fun st => st.get "owl:sameAs" == some v) =
          (m.map (·.2)).filter (fun st => st.get "owl:sameAs" == some v) := by
        simp [List.filter_cons, hpid, hkv]
      rw [List.map_cons, hfc]
      have hskip : dictGet (p :: m) v = dictGet m v := by
        simp [dictGet, assocGet, List.find?_cons, hkv]
      rw [hskip]
      exact ih (fun q hq => hinv q (List.mem_cons_of_mem _ hq)) hnd.2

/-- C1: for any accumulated station sequence and any (truthy, i.e.
non-empty) identifier occurring in it, the deduplicated collection
contains exactly one record with that identifier, and it is the last
record of the sequence bearing it — the whole record, with no merging of
fields.  (Python's `if station_id:` treats the empty identifier like an
absent one; such records never reach the dict.) -/
theorem c1_dedup_last_wins (sts : List Record) (v : JVal)
    (hv : v.truthy = true)
    (hne : sts.filter (fun st => st.get "owl:sameAs" == some v) ≠ []) :
    ∃ r, (sts.filter (fun st => st.get "owl:sameAs" == some v)).getLast? = some r ∧
      (stationsList sts).filter (fun st => st.get "owl:sameAs" == some v) = [r] := by
  have hfilter : lastIdMatch sts v =
      (sts.filter (fun st => st.get "owl:sameAs" == some v)).getLast? := by
    unfold lastIdMatch
    congr 1
    apply List.filter_congr
    intro st _
    simp [hv]
  obtain ⟨r, hr⟩ :
      ∃ r, (sts.filter (fun st => st.get "owl:sameAs" == some v)).getLast? = some r :=
    Option.isSome_iff_exists.mp (List.getLast?_isSome.mpr hne)
  refine ⟨r, hr, ?_⟩
  have hget : dictGet (uniqueStations sts) v = some r := by
    unfold uniqueStations
    rw [foldl_dedup_get v sts [], hfilter, hr]
    rfl
  have hinv : ∀ p ∈ uniqueStations sts, p.2.get "owl:sameAs" = some p.1 := by
    intro p hp
    rcases foldl_dedup_mem sts [] p hp with habs | ⟨h1, _, _⟩
    · simp at habs
    · exact h1
  have hvals := values_filter_eq v (uniqueStations sts) hinv
    (foldl_dedup_keys_nodup sts [] (by simp))
  unfold stationsList
  rw [hvals, hget]
  rfl

/-- Witness for C1: three accumulated stations, two sharing identifier B;
the dedup keeps exactly the later B record. -/
theorem c1_witness :
    (JVal.jstr "B").truthy = true ∧
    [stB1, stA, stB2].filter (fun st => st.get "owl:sameAs" == some (.jstr "B")) ≠ [] ∧
    ∃ r, ([stB1, stA, stB2].filter
        (fun st => st.get "owl:sameAs" == some (.jstr "B"))).getLast? = some r ∧
      (stationsList [stB1, stA, stB2]).filter
        (fun st => st.get "owl:sameAs" == some (.jstr "B")) = [r] :=
  ⟨rfl, by decide, c1_dedup_last_wins [stB1, stA, stB2] (.jstr "B") rfl (by decide)⟩

/-- C8: a station record lacking the identifier field is dropped by
deduplication and appears neither in the deduplicated list nor in the
sorted final output sequence (the sequence both output modes consume). -/
theorem c8_missing_id_dropped (sts : List Record) (st : Record)
    (h : st.get "owl:sameAs" = none) :
    st ∉ stationsList sts ∧ st ∉ sortedStations sts := by
  have h1 : st ∉ stationsList sts := by
    intro hmem
    rcases List.mem_map.mp hmem with ⟨p, hp, rfl⟩
    rcases foldl_dedup_mem sts [] p hp with habs | ⟨hid, _, _⟩
    · simp at habs
    · rw [h] at hid
      cases hid
  refine ⟨h1, fun hmem => h1 ?_⟩
  exact ((List.mergeSort_perm (stationsList sts) _).mem_iff).mp hmem

/-- Witness for C8: the identifier-less record is absent from both lists. -/
theorem c8_witness :
    stNoId.get "owl:sameAs" = none ∧
    stNoId ∉ stationsList [stB1, stNoId] ∧ stNoId ∉ sortedStations [stB1, stNoId] :=
  ⟨rfl, (c8_missing_id_dropped [stB1, stNoId] stNoId rfl).1,
    (c8_missing_id_dropped [stB1, stNoId] stNoId rfl).2⟩

/-! ## Sorting lemmas -/

/-- The sort comparison is transitive. -/
theorem JVal.leB_trans : ∀ a b c : JVal,
    JVal.leB a b = true → JVal.leB b c = true → JVal.leB a c = true := by
  intro a b c h1 h2
  cases a <;> cases b <;> cases c <;>
    simp only [JVal.leB, JVal.rank, decide_eq_true_eq, Bool.or_eq_true,
      Bool.not_eq_true'] at h1 h2 ⊢ <;>
    first
      | rfl
      | omega
      | exact le_trans h1 h2
      | tauto
      | (rename_i x y z; cases x <;> cases y <;> cases z <;> simp_all)

/-- The sort comparison is total. -/
theorem JVal.leB_total : ∀ a b : JVal, (JVal.leB a b || JVal.leB b a) = true := by
  intro a b
  cases a <;> cases b <;>
    simp only [JVal.leB, JVal.rank, decide_eq_true_eq, Bool.or_eq_true,
      Bool.not_eq_true'] <;>
    first
      | rfl
      | omega
      | exact le_total _ _
      | tauto
      | (rename_i x y; cases x <;> cases y <;> simp_all)

/-- C2: the final output station sequence is sorted non-decreasingly by
the station-identifier string, where a record without an identifier
contributes the empty string as its key (the `s.get('owl:sameAs', '')`
default), provided identifiers — when present — are strings, the only
case in which Python's sort does not raise. -/
theorem c2_sorted_output (sts : List Record)
    (h : ∀ st ∈ sts, ∀ v, st.get "owl:sameAs" = some v → ∃ s, v = .jstr s) :
    List.Sorted (fun a b => a ≤ b) ((sortedStations sts).map strKey) := by
  have hmemsts : ∀ st ∈ sortedStations sts, st ∈ sts := by
    intro st hst
    have hst2 : st ∈ stationsList sts := ((List.mergeSort_perm _ _).mem_iff).mp hst
    rcases List.mem_map.mp hst2 with ⟨p, hp, rfl⟩
    rcases foldl_dedup_mem sts [] p hp with habs | ⟨_, _, hmem⟩
    · simp at habs
    · exact hmem
  have hkey : ∀ st ∈ sortedStations sts, sortKey st = .jstr (strKey st) := by
    intro st hst
    cases hg : st.get "owl:sameAs" with
    | none => simp [sortKey, strKey, hg]
    | some v =>
      rcases h st (hmemsts st hst) v hg with ⟨s, rfl⟩
      simp [sortKey, strKey, hg]
  have hpw : List.Pairwise (fun a b => JVal.leB (sortKey a) (sortKey b) = true)
      (sortedStations sts) := by
    unfold sortedStations
    exact @List.sorted_mergeSort _ (fun a b => JVal.leB (sortKey a) (sortKey b))
      (fun a b c hab hbc => JVal.leB_trans _ _ _ hab hbc)
      (fun a b => JVal.leB_total _ _)
      (stationsList sts)
  show List.Pairwise (fun a b : String => a ≤ b) ((sortedStations sts).map strKey)
  rw [List.pairwise_map]
  refine List.Pairwise.imp_of_mem ?_ hpw
  intro a b ha hb hab
  rw [hkey a ha, hkey b hb] at hab
  simpa [JVal.leB] using hab

/-- Witness for C2: a concrete run's output keys are sorted. -/
theorem c2_witness :
    List.Sorted (fun a b => a ≤ b) ((sortedStations [stB1, stA, stB2]).map strKey) := by
  apply c2_sorted_output
  intro st hst v hg
  fin_cases hst
  · exact ⟨"B", (Option.some_injective _
      (show some (JVal.jstr "B") = some v from hg)).symm⟩
  · exact ⟨"A", (Option.some_injective _
      (show some (JVal.jstr "A") = some v from hg)).symm⟩
  · exact ⟨"B", (Option.some_injective _
      (show some (JVal.jstr "B") = some v from hg)).symm⟩

/-! ## GeoJSON lemmas -/

/-- The feature loop emits exactly the convertible stations, in order,
and counts the rest. -/
theorem buildFeatures_eq (sl : List Record) :
    buildFeatures sl = (sl.filterMap toFeature,
      (sl.filter (fun st => (geometryOf st).isNone)).length) := by
  induction sl with
  | nil => rfl
  | cons st rest ih =>
    unfold buildFeatures
    rw [ih]
    cases h : toFeature st with
    | some f =>
      have hg : (geometryOf st).isNone = false := by
        unfold toFeature at h
        cases hgeo : geometryOf st
        · rw [hgeo] at h; cases h
        · simp [hgeo]
      simp [List.filterMap_cons, h, List.filter_cons, hg]
    | none =>
      have hg : (geometryOf st).isNone = true := by
        unfold toFeature at h
        cases hgeo : geometryOf st
        · simp [hgeo]
        · rw [hgeo] at h; cases h
      simp [List.filterMap_cons, h, List.filter_cons, hg]

/-- The Python `lat`/`lon` variable is `None` exactly when no alias is
present or the first present alias holds null. -/
theorem coordVal_none_iff (st : Record) (a : List String) :
    coordVal st a = none ↔
      firstPresentVal st a = none ∨ firstPresentVal st a = some .jnull := by
  unfold coordVal
  cases h : firstPresentVal st a with
  | none => simp
  | some v => cases v <;> simp

/-- The Python `lat`/`lon` variable holds `v` exactly when the first
present alias holds a non-null `v`. -/
theorem coordVal_some_iff (st : Record) (a : List String) (v : JVal) :
    coordVal st a = some v ↔
      firstPresentVal st a = some v ∧ ¬ v = .jnull := by
  unfold coordVal
  cases h : firstPresentVal st a with
  | none => simp
  | some w =>
    cases w <;> simp <;> (intro he; subst he; simp)

/-- C3: in GeoJSON mode a station is skipped (counted, not emitted) if
and only if its latitude or its longitude is absent under every alias or
fails to parse as a number (`float()` raises on null, containers and
non-numeric strings); in plain-JSON mode the document carries the very
same records unchanged. -/
theorem c3_skip_iff (sl : List Record) :
    (buildFeatures sl).2 = (sl.filter (fun st => (geometryOf st).isNone)).length ∧
    (buildFeatures sl).1 = sl.filterMap toFeature ∧
    (∀ st : Record, geometryOf st = none ↔
      ((firstPresentVal st latAliases = none ∨
        ∃ v, firstPresentVal st latAliases = some v ∧ pyFloat v = none) ∨
       (firstPresentVal st lonAliases = none ∨
        ∃ v, firstPresentVal st lonAliases = some v ∧ pyFloat v = none))) ∧
    (∀ (operators : List String) (rt : ℕ), (outputDoc operators rt sl).stations = sl) := by
  refine ⟨by rw [buildFeatures_eq], by rw [buildFeatures_eq], ?_, fun _ _ => rfl⟩
  intro st
  unfold geometryOf
  cases hla : coordVal st latAliases with
  | none =>
    constructor
    · intro _
      left
      rcases (coordVal_none_iff st latAliases).mp hla with h | h
      · exact Or.inl h
      · exact Or.inr ⟨.jnull, h, rfl⟩
    · intro _
      rfl
  | some la =>
    obtain ⟨hfla, hlan⟩ := (coordVal_some_iff st latAliases la).mp hla
    cases hlo : coordVal st lonAliases with
    | none =>
      constructor
      · intro _
        right
        rcases (coordVal_none_iff st lonAliases).mp hlo with h | h
        · exact Or.inl h
        · exact Or.inr ⟨.jnull, h, rfl⟩
      · intro _
        rfl
    | some lo =>
      obtain ⟨hflo, hlon⟩ := (coordVal_some_iff st lonAliases lo).mp hlo
      cases hpa : pyFloat la with
      | none =>
        constructor
        · intro _
          exact Or.inl (Or.inr ⟨la, hfla, hpa⟩)
        · intro _
          simp [hpa]
      | some qa =>
        cases hpb : pyFloat lo with
        | none =>
          constructor
          · intro _
            exact Or.inr (Or.inr ⟨lo, hflo, hpb⟩)
          · intro _
            simp [hpa, hpb]
        | some qb =>
          constructor
          · intro h
            simp [hpa, hpb] at h
          · intro h
            exfalso
            rcases h with (h | ⟨v, hv, hpv⟩) | (h | ⟨v, hv, hpv⟩)
            · rw [hfla] at h; cases h
            · rw [hfla] at hv
              injection hv with hv
              subst hv
              rw [hpa] at hpv
              cases hpv
            · rw [hflo] at h; cases h
            · rw [hflo] at hv
              injection hv with hv
              subst hv
              rw [hpb] at hpv
              cases hpv

/-- Witness for C3: of two concrete stations one has coordinates and one
has none; the skipped count is 1, the coordinate-less record satisfies
the skip condition, and plain mode keeps both records. -/
theorem c3_witness :
    (buildFeatures [stGeo, stNoId]).2 = 1 ∧
    ((firstPresentVal stNoId latAliases = none ∨
      ∃ v, firstPresentVal stNoId latAliases = some v ∧ pyFloat v = none) ∨
     (firstPresentVal stNoId lonAliases = none ∨
      ∃ v, firstPresentVal stNoId lonAliases = some v ∧ pyFloat v = none)) ∧
    (outputDoc ["OP-A"] 1 [stGeo, stNoId]).stations = [stGeo, stNoId] := by
  refine ⟨?_, ((c3_skip_iff [stGeo, stNoId]).2.2.1 stNoId).mp rfl,
    (c3_skip_iff [stGeo, stNoId]).2.2.2 ["OP-A"] 1⟩
  rw [(c3_skip_iff [stGeo, stNoId]).1]
  rfl

/-- C9: every emitted Feature carries exactly the four whitelisted
properties (with `get` semantics) and a Point geometry `[lon, lat]`
whose components come from the first present latitude and longitude
aliases, in priority order, converted by `float()`. -/
theorem c9_feature_shape (sl : List Record) :
    (buildFeatures sl).1 = sl.filterMap toFeature ∧
    ∀ (st : Record) (f : Feature), toFeature st = some f →
      f.properties = featureProps st ∧
      (featureProps st).map (·.1) =
        ["owl:sameAs", "odpt:stationTitle", "odpt:operator", "odpt:railway"] ∧
      ∃ la lo qla qlo,
        firstPresentVal st latAliases = some la ∧
        firstPresentVal st lonAliases = some lo ∧
        pyFloat la = some qla ∧ pyFloat lo = some qlo ∧
        f.geometry = [qlo, qla] := by
  refine ⟨by rw [buildFeatures_eq], ?_⟩
  intro st f hf
  unfold toFeature at hf
  cases hgeo : geometryOf st with
  | none => rw [hgeo] at hf; cases hf
  | some g =>
    rw [hgeo] at hf
    cases hla : coordVal st latAliases with
    | none =>
      exfalso
      have hred : geometryOf st = none := by simp [geometryOf, hla]
      rw [hred] at hgeo
      cases hgeo
    | some la =>
      cases hlo : coordVal st lonAliases with
      | none =>
        exfalso
        have hred : geometryOf st = none := by simp [geometryOf, hla, hlo]
        rw [hred] at hgeo
        cases hgeo
      | some lo =>
        cases hpa : pyFloat la with
        | none =>
          exfalso
          have hred : geometryOf st = none := by simp [geometryOf, hla, hlo, hpa]
          rw [hred] at hgeo
          cases hgeo
        | some qa =>
          cases hpb : pyFloat lo with
          | none =>
            exfalso
            have hred : geometryOf st = none := by simp [geometryOf, hla, hlo, hpa, hpb]
            rw [hred] at hgeo
            cases hgeo
          | some qb =>
            have hval : geometryOf st = some [qb, qa] := by
              simp [geometryOf, hla, hlo, hpa, hpb]
            rw [hval] at hgeo
            injection hgeo with hgeo
            injection hf with hf
            subst hf
            subst hgeo
            refine ⟨rfl, rfl, la, lo, qa, qb,
              ((coordVal_some_iff st latAliases la).mp hla).1,
              ((coordVal_some_iff st lonAliases lo).mp hlo).1,
              hpa, hpb, rfl⟩

/-- Witness for C9: the concrete station's feature has the whitelisted
properties and geometry `[139, 35]` from `geo:long`/`geo:lat`. -/
theorem c9_witness :
    ∃ f, toFeature stGeo = some f ∧ f.properties = featureProps stGeo ∧
      ∃ la lo qla qlo,
        firstPresentVal stGeo latAliases = some la ∧
        firstPresentVal stGeo lonAliases = some lo ∧
        pyFloat la = some qla ∧ pyFloat lo = some qlo ∧
        f.geometry = [qlo, qla] := by
  refine ⟨{ geometry := [139, 35], properties := featureProps stGeo }, rfl, ?_⟩
  have h := (c9_feature_shape [stGeo]).2 stGeo
    { geometry := [139, 35], properties := featureProps stGeo } rfl
  exact ⟨h.1, h.2.2⟩

/-! ## Main control flow -/

/-- C5: exit status 1 when no truthy key can be resolved and when the
operator list is absent or empty (in both cases with no output file
written), exit 130 on user interrupt during fetching, and exit 1 on any
HTTP, URL or unexpected fetch error (also with no file written). -/
theorem c5_exit_codes (env : Env) :
    (strTruthy (resolveKey env) = false →
      mainRun env = { exitCode := 1, fileWritten := none }) ∧
    (readOperators env.operatorsFile = [] →
      mainRun env = { exitCode := 1, fileWritten := none }) ∧
    (∀ e : FetchErr, strTruthy (resolveKey env) = true →
      aggStations env (readOperators env.operatorsFile) = .error e →
      mainRun env =
        { exitCode := if e = .interrupt then 130 else 1, fileWritten := none }) := by
  refine ⟨?_, ?_, ?_⟩
  · intro h
    simp [mainRun, h]
  · intro h
    by_cases hk : strTruthy (resolveKey env) = true
    · simp [mainRun, hk, h]
    · have hk' : strTruthy (resolveKey env) = false := by simpa using hk
      simp [mainRun, hk']
  · intro e hk hagg
    have hne : readOperators env.operatorsFile ≠ [] := by
      intro hops
      rw [hops] at hagg
      simp [aggStations] at hagg
    have hne2 : (readOperators env.operatorsFile).isEmpty = false := by
      cases hops : readOperators env.operatorsFile with
      | nil => exact absurd hops hne
      | cons a l => rfl
    simp only [mainRun, hk, Bool.not_true, Bool.false_eq_true, if_false, hne2, hagg]
    cases e <;> rfl

/-- Witness for C5 at concrete environments: missing key, empty operator
list, and an interrupted fetch. -/
theorem c5_witness :
    mainRun envNoKey = { exitCode := 1, fileWritten := none } ∧
    mainRun
      { cliKey := some "k"
        configKey := none
        operatorsFile := some ["# comment only"]
        railwaysOf := fun _ => .ok []
        stationsOf := fun _ => .ok []
        geojsonFlag := false
        outputPath := some "out.json" } =
      { exitCode := 1, fileWritten := none } ∧
    mainRun envInterrupted = { exitCode := 130, fileWritten := none } :=
  ⟨(c5_exit_codes envNoKey).1 rfl,
   (c5_exit_codes _).2.1 rfl,
   by simpa using (c5_exit_codes envInterrupted).2.2 .interrupt rfl rfl⟩

/-- C10: a railway record with no identifier field still adds to the
running railway count, while contributing no stations at all — so the
summary's railway count can exceed the number of railways that
contributed stations. -/
theorem c10_idless_railway_counted (env : Env) (op : String) (rws : List Record)
    (hop : ¬ op = "") (hrw : env.railwaysOf op = .ok rws)
    (hids : ∀ rw ∈ rws, rw.get "owl:sameAs" = none) :
    aggStations env [op] = .ok ([], rws.length) := by
  have hrs : ∀ rws2 : List Record, (∀ rw ∈ rws2, rw.get "owl:sameAs" = none) →
      railwaysStations env rws2 = .ok [] := by
    intro rws2
    induction rws2 with
    | nil => intro _; rfl
    | cons rw rws2 ih =>
      intro hids2
      have hid := hids2 rw (List.mem_cons_self _ _)
      have htr : ((rw.get "owl:sameAs").getD .jnull).truthy = false := by
        rw [hid]
        rfl
      simp only [railwaysStations, htr, Bool.false_eq_true, if_false]
      exact ih (fun r hr => hids2 r (List.mem_cons_of_mem _ hr))
  simp [aggStations, hop, hrw, hrs rws hids]

/-- Witness for C10: one operator with a single nameless railway yields a
railway count of 1 and no stations. -/
theorem c10_witness :
    aggStations envNoIdRailway ["OP-A"] = .ok ([], 1) :=
  c10_idless_railway_counted envNoIdRailway "OP-A" [rwNoId]
    (by decide) rfl (by intro rw hr; fin_cases hr; rfl)

/-! ## Serialization lemmas -/

/-- Decoding a printed digit character. -/
theorem digitChar_toNat (d : ℕ) (h : d < 10) :
    (Char.ofNat (48 + d)).toNat = 48 + d := by
  interval_cases d <;> decide

/-- Printed digit characters are digits. -/
theorem digitChar_isDigit (d : ℕ) (h : d < 10) :
    (Char.ofNat (48 + d)).isDigit = true := by
  interval_cases d <;> decide

/-- Folding the decimal digits of `n` onto an accumulator. -/
theorem natDecAux_foldl (fuel : ℕ) :
    ∀ n acc, n ≤ fuel →
      (natDecAux fuel n).foldl (fun a c => 10 * a + (c.toNat - 48)) acc =
        acc * 10 ^ (natDecAux fuel n).length + n := by
  induction fuel with
  | zero =>
    intro n acc hn
    interval_cases n
    simp [natDecAux]
  | succ fuel ih =>
    intro n acc hn
    cases n with
    | zero => simp [natDecAux]
    | succ m =>
      rw [natDecAux, List.foldl_append]
      have hdiv : (m + 1) / 10 ≤ fuel := by
        have := Nat.div_lt_self (Nat.succ_pos m) (by norm_num : 1 < 10)
        omega
      rw [ih _ acc hdiv]
      have hm10 : (m + 1) % 10 < 10 := Nat.mod_lt _ (by norm_num)
      have hchar := digitChar_toNat _ hm10
      simp only [List.foldl_cons, List.foldl_nil, List.length_append,
        List.length_cons, List.length_nil, hchar]
      have hmod := Nat.div_add_mod (m + 1) 10
      have hsub : 48 + (m + 1) % 10 - 48 = (m + 1) % 10 := by omega
      rw [hsub]
      have hring : 10 * (acc * 10 ^ (natDecAux fuel ((m + 1) / 10)).length + (m + 1) / 10) +
          (m + 1) % 10 =
          acc * (10 ^ (natDecAux fuel ((m + 1) / 10)).length * 10) +
          (10 * ((m + 1) / 10) + (m + 1) % 10) := by ring
      rw [hring, hmod, pow_succ]

/-- All printed characters are digits. -/
theorem natDecAux_digits (fuel : ℕ) :
    ∀ n, ∀ c ∈ natDecAux fuel n, c.isDigit = true := by
  induction fuel with
  | zero => intro n c hc; simp [natDecAux] at hc
  | succ fuel ih =>
    intro n c hc
    cases n with
    | zero => simp [natDecAux] at hc
    | succ m =>
      rw [natDecAux] at hc
      rcases List.mem_append.mp hc with hc | hc
      · exact ih _ c hc
      · simp only [List.mem_singleton] at hc
        subst hc
        exact digitChar_isDigit _ (Nat.mod_lt _ (by norm_num))

/-- All characters of `natDec n` are digits. -/
theorem natDec_digits (n : ℕ) : ∀ c ∈ natDec n, c.isDigit = true := by
  unfold natDec
  split
  · intro c hc
    simp only [List.mem_singleton] at hc
    subst hc
    decide
  · exact natDecAux_digits (n + 1) n

/-- The decimal print of `n` is never empty. -/
theorem natDec_ne_nil (n : ℕ) : natDec n ≠ [] := by
  unfold natDec
  split
  · simp
  · rename_i h
    cases n with
    | zero => exact absurd rfl h
    | succ m =>
      rw [natDecAux]
      simp

/-- Reading back the decimal print of `n`. -/
theorem digitsToNat_natDec (n : ℕ) : digitsToNat (natDec n) = n := by
  unfold natDec digitsToNat
  split
  · rename_i h
    subst h
    decide
  · have := natDecAux_foldl (n + 1) n 0 (by omega)
    simpa using this

/-- `takeWhile` passes over a fully satisfying block. -/
theorem takeWhile_append_all {α : Type} (p : α → Bool) (xs ys : List α)
    (h : ∀ x ∈ xs, p x = true) :
    (xs ++ ys).takeWhile p = xs ++ ys.takeWhile p := by
  induction xs with
  | nil => simp
  | cons a xs ih =>
    have ha := h a (List.mem_cons_self _ _)
    simp only [List.cons_append, List.takeWhile_cons, ha, if_true]
    rw [ih (fun x hx => h x (List.mem_cons_of_mem _ hx))]

/-- `dropWhile` passes over a fully satisfying block. -/
theorem dropWhile_append_all {α : Type} (p : α → Bool) (xs ys : List α)
    (h : ∀ x ∈ xs, p x = true) :
    (xs ++ ys).dropWhile p = ys.dropWhile p := by
  induction xs with
  | nil => simp
  | cons a xs ih =>
    have ha := h a (List.mem_cons_self _ _)
    simp only [List.cons_append, List.dropWhile_cons, ha, if_true]
    exact ih (fun x hx => h x (List.mem_cons_of_mem _ hx))

/-- The number token parser consumes exactly a printed number when the
remainder starts with a non-digit. -/
theorem parseNatTok_append (n : ℕ) (rest : List Char)
    (hrt : rest.takeWhile Char.isDigit = [])
    (hrd : rest.dropWhile Char.isDigit = rest) :
    parseNatTok (natDec n ++ rest) = some (n, rest) := by
  unfold parseNatTok
  rw [takeWhile_append_all _ _ _ (natDec_digits n),
    dropWhile_append_all _ _ _ (natDec_digits n), hrt, hrd, List.append_nil]
  have hne : (natDec n).isEmpty = false := by
    cases h : natDec n with
    | nil => exact absurd h (natDec_ne_nil n)
    | cons a l => rfl
  simp [hne, digitsToNat_natDec]

/-- The literal consumer strips an exact prefix. -/
theorem expectLit_append (lit rest : List Char) :
    expectLit lit (lit ++ rest) = some rest := by
  unfold expectLit
  rw [if_pos]
  · rw [List.drop_left]
  · exact ( List.isPrefixOf_iff_prefix).mpr (List.prefix_append lit rest)

/-- Parsing the summary counts back out of the serialized document
recovers exactly the three serialized numbers, for any station payload. -/
theorem parseSummaryCounts_dumps (a b c : ℕ) (sl : List Record) :
    parseSummaryCounts (dumpsOutput
      { opCount := a, railwayTotal := b, stationCount := c, stations := sl }) =
      some (a, b, c) := by
  have hsplit : "\x7d, \"stations\": ".data = "\x7d".data ++ ", \"stations\": ".data := by
    decide
  have h1 : (dumpsOutput
      { opCount := a, railwayTotal := b, stationCount := c, stations := sl }).data =
      "\x7b\"summary\": \x7b\"operators\": ".data ++
        (natDec a ++ (", \"railways\": ".data ++
          (natDec b ++ (", \"stations\": ".data ++
            (natDec c ++ ("\x7d".data ++
              (", \"stations\": ".data ++
                ((dumpStations sl).data ++ "\x7d".data)))))))) := by
    simp only [dumpsOutput, natDecS, String.data_append, hsplit, List.append_assoc,
      List.cons_append, List.singleton_append, List.nil_append]
  unfold parseSummaryCounts
  rw [h1, expectLit_append]
  simp only [Option.bind_eq_bind, Option.some_bind]
  rw [parseNatTok_append a _ (by rfl) (by rfl)]
  simp only [Option.bind_eq_bind, Option.some_bind]
  rw [expectLit_append]
  simp only [Option.bind_eq_bind, Option.some_bind]
  rw [parseNatTok_append b _ (by rfl) (by rfl)]
  simp only [Option.bind_eq_bind, Option.some_bind]
  rw [expectLit_append]
  simp only [Option.bind_eq_bind, Option.some_bind]
  rw [parseNatTok_append c _ (by rfl) (by rfl)]
  simp only [Option.bind_eq_bind, Option.some_bind]
  rw [expectLit_append]
  simp only [Option.bind_eq_bind, Option.some_bind]

/-- C4: serializing the plain-JSON output and parsing it back yields
summary counts equal to those computed during aggregation — operators is
the length of the operator list read from the file, railways the running
railway total, and stations the number of unique deduplicated records. -/
theorem c4_roundtrip_counts (env : Env) (ops : List String)
    (sts : List Record) (rc : ℕ)
    (hops : ops = readOperators env.operatorsFile)
    (hagg : aggStations env ops = .ok (sts, rc)) :
    parseSummaryCounts (dumpsOutput (outputDoc ops rc (sortedStations sts))) =
      some (ops.length, rc, (stationsList sts).length) := by
  have hlen : (sortedStations sts).length = (stationsList sts).length :=
    (List.mergeSort_perm (stationsList sts) _).length_eq
  unfold outputDoc
  rw [parseSummaryCounts_dumps, hlen]

/-- Witness for C4: a one-operator one-railway one-station run. -/
theorem c4_witness :
    parseSummaryCounts (dumpsOutput (outputDoc ["OP-A"] 1
        (sortedStations [tagRailway (.jstr "R1") stGeo]))) =
      some (1, 1, (stationsList [tagRailway (.jstr "R1") stGeo]).length) :=
  c4_roundtrip_counts envOk ["OP-A"] [tagRailway (.jstr "R1") stGeo] 1 rfl rfl

/-! ## Redaction lemmas -/

/-- `hasSub` decides the substring (infix) relation. -/
theorem hasSub_iff (s pat : List Char) : hasSub s pat = true ↔ pat <:+: s := by
  induction s with
  | nil => simp [hasSub, List.infix_nil, List.isEmpty_iff]
  | cons c rest ih =>
    rw [hasSub]
    simp only [Bool.or_eq_true]
    rw [List.infix_cons_iff]
    constructor
    · rintro (h | h)
      · exact Or.inl (( List.isPrefixOf_iff_prefix).mp h)
      · exact Or.inr (ih.mp h)
    · rintro (h | h)
      · exact Or.inl (( List.isPrefixOf_iff_prefix).mpr h)
      · exact Or.inr (ih.mpr h)

/-- A prefix of an append is a prefix of the first part or extends it. -/
theorem prefix_split {α : Type} (u a b : List α) (h : u <+: a ++ b) :
    u <+: a ∨ ∃ p2, p2 ≠ [] ∧ u = a ++ p2 ∧ p2 <+: b := by
  obtain ⟨t, ht⟩ := h
  rcases List.append_eq_append_iff.mp ht with ⟨a', ha, _⟩ | ⟨c', hu, hb⟩
  · exact Or.inl ⟨a', ha.symm⟩
  · cases c' with
    | nil =>
      simp only [List.append_nil] at hu
      subst hu
      exact Or.inl (List.prefix_refl _)
    | cons x xs => exact Or.inr ⟨x :: xs, by simp, hu, ⟨t, hb.symm⟩⟩

/-- An infix of an append lies in one part or spans the boundary as a
nonempty suffix of the first part glued to a nonempty prefix of the
second. -/
theorem infix_split {α : Type} (u b : List α) :
    ∀ a : List α, u <:+: a ++ b →
      u <:+: a ∨ u <:+: b ∨
        ∃ s1 p2, s1 ≠ [] ∧ p2 ≠ [] ∧ s1 <:+ a ∧ p2 <+: b ∧ u = s1 ++ p2 := by
  intro a
  induction a with
  | nil => intro h; exact Or.inr (Or.inl (by simpa using h))
  | cons c a' ih =>
    intro h
    rw [List.cons_append, List.infix_cons_iff] at h
    rcases h with h | h
    · cases u with
      | nil => exact Or.inl List.nil_infix
      | cons d u' =>
        rw [List.cons_prefix_cons] at h
        obtain ⟨rfl, hu'⟩ := h
        rcases prefix_split u' a' b hu' with h2 | ⟨p2, hne, hu2, hp2⟩
        · exact Or.inl (List.IsPrefix.isInfix (List.cons_prefix_cons.mpr ⟨rfl, h2⟩))
        · refine Or.inr (Or.inr ⟨d :: a', p2, by simp, hne, List.suffix_refl _, hp2, ?_⟩)
          rw [hu2]
          rfl
    · rcases ih h with h2 | h2 | ⟨s1, p2, hs1, hp2, hsfx, hpfx, heq⟩
      · exact Or.inl (List.infix_cons h2)
      · exact Or.inr (Or.inl h2)
      · exact Or.inr (Or.inr
          ⟨s1, p2, hs1, hp2, hsfx.trans (List.suffix_cons c a'), hpfx, heq⟩)

/-- A prefix of the replacement worker's output that avoids the
replacement's first character is a prefix of the input. -/
theorem pyReplaceAux_pre (pat rep : List Char) (c0 : Char) (hh : rep.head? = some c0) :
    ∀ (n : ℕ) (s : List Char), s.length ≤ n → ∀ u, c0 ∉ u →
      u <+: pyReplaceAux pat rep n s → u <+: s ∨ u = [] := by
  intro n
  induction n with
  | zero =>
    intro s hs u hc hu
    have hsz : s = [] := by
      cases s with
      | nil => rfl
      | cons a l => simp at hs
    subst hsz
    rw [pyReplaceAux] at hu
    exact Or.inr (List.prefix_nil.mp hu)
  | succ n ih =>
    intro s hs u hc hu
    cases s with
    | nil =>
      rw [pyReplaceAux] at hu
      exact Or.inr (List.prefix_nil.mp hu)
    | cons c rest =>
      rw [pyReplaceAux] at hu
      split at hu
      · cases u with
        | nil => exact Or.inr rfl
        | cons d u' =>
          exfalso
          cases rep with
          | nil => simp at hh
          | cons r0 rtl =>
            injection hh with hh0
            rw [List.cons_append, List.cons_prefix_cons] at hu
            have hdc : d = c0 := hu.1.trans hh0
            exact hc (by rw [← hdc]; exact List.mem_cons_self _ _)
      · cases u with
        | nil => exact Or.inr rfl
        | cons d u' =>
          rw [List.cons_prefix_cons] at hu
          obtain ⟨rfl, hu'⟩ := hu
          have hlen : rest.length ≤ n := by
            simp only [List.length_cons] at hs
            omega
          rcases ih rest hlen u' (fun hmem => hc (List.mem_cons_of_mem _ hmem)) hu'
            with h2 | h2
          · exact Or.inl (List.cons_prefix_cons.mpr ⟨rfl, h2⟩)
          · subst h2
            exact Or.inl (List.cons_prefix_cons.mpr ⟨rfl, List.nil_prefix⟩)

/-- A prefix of the replacement output that avoids the replacement's
first character is a prefix of the input. -/
theorem pyReplace_pre (pat rep : List Char) (c0 : Char) (hh : rep.head? = some c0) :
    ∀ (s u : List Char), c0 ∉ u → u <+: pyReplace s pat rep → u <+: s ∨ u = [] := by
  intro s u hc hu
  exact pyReplaceAux_pre pat rep c0 hh s.length s le_rfl u hc hu

/-- After replacing every occurrence of a nonempty pattern that contains
neither the first nor the last character of the replacement and is not a
substring of the replacement, the pattern does not occur in the output. -/
theorem pyReplace_no_occurrence (pat rep : List Char) (c0 cl : Char)
    (hh : rep.head? = some c0) (hl : rep.getLast? = some cl)
    (hp : pat ≠ []) (hc0 : c0 ∉ pat) (hcl : cl ∉ pat) (hm : ¬ pat <:+: rep) :
    ∀ s : List Char, ¬ pat <:+: pyReplace s pat rep := by
  have key : ∀ (n : ℕ) (s : List Char), s.length ≤ n →
      ¬ pat <:+: pyReplaceAux pat rep n s := by
    intro n
    induction n with
    | zero =>
      intro s hs
      have hsz : s = [] := by
        cases s with
        | nil => rfl
        | cons a l => simp at hs
      subst hsz
      rw [pyReplaceAux, List.infix_nil]
      exact hp
    | succ n ih =>
      intro s hs
      cases s with
      | nil =>
        rw [pyReplaceAux, List.infix_nil]
        exact hp
      | cons c rest =>
        rw [pyReplaceAux]
        split
        · rename_i hcond
          intro hinf
          have hdl : ((c :: rest).drop pat.length).length ≤ n := by
            rw [List.length_drop]
            have hpos : 0 < pat.length := List.length_pos.mpr hp
            simp only [List.length_cons] at hs ⊢
            omega
          rcases infix_split pat (pyReplaceAux pat rep n ((c :: rest).drop pat.length))
              rep hinf
            with h | h | ⟨s1, p2, hs1, hp2, hsfx, hpfx, heq⟩
          · exact hm h
          · exact ih _ hdl h
          · obtain ⟨t, ht⟩ := hsfx
            rcases List.eq_nil_or_concat s1 with rfl | ⟨L, x, hxy⟩
            · exact hs1 rfl
            · subst hxy
              have hx : rep.getLast? = some x := by
                rw [← ht, List.concat_eq_append, List.getLast?_append,
                  List.getLast?_append]
                simp
              rw [hl] at hx
              injection hx with hx
              apply hcl
              rw [heq, hx]
              apply List.mem_append.mpr
              left
              rw [List.concat_eq_append]
              exact List.mem_append.mpr (Or.inr (List.mem_singleton.mpr rfl))
        · rename_i hcond
          intro hinf
          rw [List.infix_cons_iff] at hinf
          rcases hinf with hpre | hinf2
          · have hrl : rest.length ≤ n := by
              simp only [List.length_cons] at hs
              omega
            cases pat with
            | nil => exact hp rfl
            | cons d pat' =>
              rw [List.cons_prefix_cons] at hpre
              obtain ⟨rfl, hpre'⟩ := hpre
              have hc0' : c0 ∉ pat' := fun hmem => hc0 (List.mem_cons_of_mem _ hmem)
              rcases pyReplaceAux_pre _ rep c0 hh n rest hrl pat' hc0' hpre'
                with h2 | h2
              · exact hcond ⟨hp, ( List.isPrefixOf_iff_prefix).mpr
                  (List.cons_prefix_cons.mpr ⟨rfl, h2⟩)⟩
              · subst h2
                exact hcond ⟨hp, ( List.isPrefixOf_iff_prefix).mpr
                  (List.cons_prefix_cons.mpr ⟨rfl, List.nil_prefix⟩)⟩
          · exact ih rest (by simp only [List.length_cons] at hs; omega) hinf2
  intro s
  exact key s.length s le_rfl

/-- C6 counterexample: with access key `API_KEY`, the redacted URL that
the HTTP error handler prints still contains the key verbatim — the key
occurs inside the redaction marker `<API_KEY_REDACTED>` itself. -/
theorem c6_counterexample :
    hasSub (safeUrl "API_KEY"
      (buildUrl "https://api-challenge.odpt.org/api/v4/" "API_KEY"
        "odpt:Operator" [])).data "API_KEY".data = true := by
  decide

/-- C6 (amended): the error handler replaces every occurrence of the key
in the URL with `<API_KEY_REDACTED>` before reporting, and the reported
URL does not contain the key verbatim provided the key is non-empty,
contains neither `<` nor `>`, and does not itself occur as a substring of
the redaction marker. -/
theorem c6_redaction (apiKey url : String)
    (h1 : apiKey ≠ "")
    (h2 : '<' ∉ apiKey.data) (h3 : '>' ∉ apiKey.data)
    (h4 : hasSub redactMarker.data apiKey.data = false) :
    hasSub (safeUrl apiKey url).data apiKey.data = false := by
  have hpne : apiKey.data ≠ [] := by
    intro hd
    exact h1 (String.ext (by rw [hd]))
  have hm : ¬ apiKey.data <:+: redactMarker.data := by
    intro hinf
    rw [← hasSub_iff, h4] at hinf
    cases hinf
  have hno := pyReplace_no_occurrence apiKey.data redactMarker.data '<' '>'
    (by rfl) (by rfl) hpne h2 h3 hm url.data
  have hdat : (safeUrl apiKey url).data =
      pyReplace url.data apiKey.data redactMarker.data := rfl
  rw [hdat]
  cases hcase : hasSub (pyReplace url.data apiKey.data redactMarker.data) apiKey.data with
  | false => rfl
  | true => exact absurd ((hasSub_iff _ _).mp hcase) hno

/-- Witness for the amended C6: a realistic key satisfies all three
conditions and is fully redacted from the request URL. -/
theorem c6_witness :
    "secretkey123" ≠ "" ∧ '<' ∉ "secretkey123".data ∧ '>' ∉ "secretkey123".data ∧
    hasSub redactMarker.data "secretkey123".data = false ∧
    hasSub (safeUrl "secretkey123"
      (buildUrl "https://api-challenge.odpt.org/api/v4/" "secretkey123"
        "odpt:Operator" [])).data "secretkey123".data = false :=
  ⟨by decide, by decide, by decide, by decide,
   c6_redaction "secretkey123" _ (by decide) (by decide) (by decide) (by decide)⟩
